import Mathlib

/-!
Verification of the search-result indexing and dirty-state logic of the
find-and-replace UI plugin, and of the default image-style configuration
of the image-style editing plugin.

The embedding models the bindings installed by the method that sets up the
form view:

* the highlightOffset binding, which sorts a copy of the editing-state
  results by marker start position using the three-way comparator mapped
  through `\x7b before: -1, same: 0, after: 1 \x7d` and returns the index of
  the highlighted result in the sorted copy plus one (or 0 when nothing is
  highlighted);
* the change handler on the results collection, which writes the collection
  length into the matchCount property of the form view;
* the handler on the change of the isDirty property of the form view, which
  fires the searchReseted event exactly when the new value is true;
* the default-configuration method of the image-style editing plugin, which
  picks the default arrangements and groups from which image editing
  plugins are loaded.

Modelling decisions.  A document position is an integer; the `compareWith`
method of positions returns before / same / after according to the integer
order.  A search result is a record of an identity tag and the start
position of its marker: the identity tag models JavaScript object identity,
so a list of results modelling a real result collection has pairwise
distinct entries, and the reference-equality search of
`Array.prototype.indexOf` coincides with structural equality.  The
ECMAScript 2019 specification requires `Array.prototype.sort` to be stable;
for a comparator that is consistent with a total preorder, stability,
sortedness and being a permutation determine the output uniquely, so the
stable `List.insertionSort` of Mathlib is a faithful model of the sort call.
-/

/-- Outcome of comparing two document positions with `compareWith`. -/
inductive CompareOutcome where
  | before
  | same
  | after
deriving DecidableEq

/-- The `compareWith` method of document positions, with positions
modelled as integers in document order. -/
def compareWith (a b : Int) : CompareOutcome :=
  if a < b then CompareOutcome.before
  else if a = b then CompareOutcome.same
  else CompareOutcome.after

/-- A single search result: an identity tag modelling JavaScript object
identity, and the start position of the marker of the result. -/
structure SearchResult where
  id : Nat
  markerStart : Int
deriving DecidableEq

/-- The object literal `\x7b before: -1, same: 0, after: 1 \x7d` used to turn
the three-way outcome into a numeric comparator value. -/
def sortMapping : CompareOutcome → Int
  | CompareOutcome.before => -1
  | CompareOutcome.same => 0
  | CompareOutcome.after => 1

/-- The comparator closure passed to the sort call: it compares the marker
start positions of two results and maps the outcome through `sortMapping`. -/
def resultComparator (a b : SearchResult) : Int :=
  sortMapping (compareWith a.markerStart b.markerStart)

/-- The ordering induced by the comparator: `a` may stay before `b`
exactly when the comparator value is at most zero. -/
def comparatorLE (a b : SearchResult) : Prop :=
  resultComparator a b ≤ 0

instance : DecidableRel comparatorLE := fun _ _ => Int.decLe _ _

/-- The sort call of the highlightOffset binding: a stable sort of the
copied result list by the comparator, modelled by insertion sort. -/
def sortResults (results : List SearchResult) : List SearchResult :=
  List.insertionSort comparatorLE results

/-- `Array.prototype.indexOf`: the first index of `x` in `l`, or -1 when
`x` does not occur in `l`. -/
def jsIndexOf (l : List SearchResult) (x : SearchResult) : Int :=
  match List.indexOf? x l with
  | some i => (i : Int)
  | none => -1

/-- The highlightOffset binding callback: 0 when no result is highlighted,
otherwise the index of the highlighted result in the sorted copy of the
results plus one. -/
def computeHighlightOffset (results : List SearchResult)
    (highlightedResult : Option SearchResult) : Int :=
  match highlightedResult with
  | none => 0
  | some h => jsIndexOf (sortResults results) h + 1

/-- The observable editing state of the find-and-replace editing plugin:
the result collection in insertion order and the highlighted result. -/
structure EditingState where
  results : List SearchResult
  highlightedResult : Option SearchResult
deriving DecidableEq

/-- The highlightOffset binding as a state-passing step: the sort runs on
the copy produced by `Array.from`, so the editing state is returned as it
was read. -/
def highlightOffsetBinding (st : EditingState) : Int × EditingState :=
  match st.highlightedResult with
  | none => (0, st)
  | some h => (jsIndexOf (sortResults st.results) h + 1, st)

/-- The observable state of the form view that the plugin writes into. -/
structure FormViewState where
  matchCount : Nat
  highlightOffset : Int
  isDirty : Bool
deriving DecidableEq

/-- The change handler on the results collection: it writes the length of
the collection into the matchCount property of the form view. -/
def onResultsChange (results : List SearchResult)
    (formView : FormViewState) : FormViewState :=
  { formView with matchCount := results.length }

/-- Events fired by the UI plugin. -/
inductive UIEvent where
  | searchReseted
deriving DecidableEq

/-- The handler registered on the change of the isDirty property: it fires
the searchReseted event exactly when the new value is true. -/
def onIsDirtyChange (isDirty : Bool) : List UIEvent :=
  if isDirty then [UIEvent.searchReseted] else []

/-- Semantics of setting an observable property: the change event fires
only when the value actually changes, and the handler receives the new
value. -/
def eventsOnIsDirtySet (oldVal newVal : Bool) : List UIEvent :=
  if oldVal = newVal then [] else onIsDirtyChange newVal

/-- The default image-style configuration: a list of arrangement names and
an optional list of group names (the group field is absent in the
block-only and inline-only defaults). -/
structure ImageStylesConfig where
  arrangements : List String
  groups : Option (List String)
deriving DecidableEq

/-- The default-configuration method of the image-style editing plugin,
as a function of whether the ImageBlock and ImageInline plugins are
loaded; the result is `none` when the local styles variable stays
undefined. -/
def defineDefaultConfiguration (isBlockLoaded isinlineLoaded : Bool) :
    Option ImageStylesConfig :=
  if isBlockLoaded && isinlineLoaded then
    some { arrangements := [ "alignInline", "alignLeft", "alignRight",
                             "alignCenter", "alignBlockLeft", "alignBlockRight" ],
           groups := some [ "inParagraph", "betweenParagraphs" ] }
  else if isBlockLoaded then
    some { arrangements := [ "full", "side" ], groups := none }
  else if isinlineLoaded then
    some { arrangements := [ "alignInline", "alignLeft", "alignRight" ],
           groups := none }
  else
    none

/-- The concrete results of the scenario at position 10, 5 and 20. -/
def resultA : SearchResult := { id := 0, markerStart := 10 }

/-- Second scenario result, at position 5. -/
def resultB : SearchResult := { id := 1, markerStart := 5 }

/-- Third scenario result, at position 20. -/
def resultC : SearchResult := { id := 2, markerStart := 20 }

/-! ### Helper lemmas about the comparator and the sort -/

theorem compareWith_eq_before_iff (a b : Int) :
    compareWith a b = CompareOutcome.before ↔ a < b := by
  unfold compareWith
  split_ifs with h1 h2 <;> simp_all

theorem compareWith_eq_same_iff (a b : Int) :
    compareWith a b = CompareOutcome.same ↔ a = b := by
  unfold compareWith
  split_ifs with h1 h2 <;> simp_all
  omega

theorem comparatorLE_iff (a b : SearchResult) :
    comparatorLE a b ↔ a.markerStart ≤ b.markerStart := by
  unfold comparatorLE resultComparator compareWith
  split_ifs with h1 h2 <;> simp [sortMapping] <;> omega

instance : IsTotal SearchResult comparatorLE :=
  ⟨fun a b => by
    rw [comparatorLE_iff, comparatorLE_iff]
    omega⟩

instance : IsTrans SearchResult comparatorLE :=
  ⟨fun a b c hab hbc => by
    rw [comparatorLE_iff] at hab hbc ⊢
    omega⟩

theorem sortResults_perm (results : List SearchResult) :
    (sortResults results).Perm results :=
  List.perm_insertionSort comparatorLE results

theorem sortResults_sorted (results : List SearchResult) :
    (sortResults results).Sorted comparatorLE :=
  List.sorted_insertionSort comparatorLE results

theorem indexOf?_eq_some_of_mem {l : List SearchResult} {x : SearchResult}
    (hx : x ∈ l) : List.indexOf? x l = some (List.indexOf x l) := by
  cases hio : List.indexOf? x l with
  | none =>
      rw [List.indexOf?_eq_none_iff] at hio
      exact absurd (hio x hx) (by simp)
  | some i =>
      have hval := List.indexOf_eq_indexOf? x l
      rw [hio] at hval
      simp [hval]

theorem jsIndexOf_of_mem {l : List SearchResult} {x : SearchResult}
    (hx : x ∈ l) : jsIndexOf l x = (List.indexOf x l : Int) := by
  unfold jsIndexOf
  rw [indexOf?_eq_some_of_mem hx]

theorem jsIndexOf_of_not_mem {l : List SearchResult} {x : SearchResult}
    (hx : x ∉ l) : jsIndexOf l x = -1 := by
  have hnone : List.indexOf? x l = none := by
    rw [List.indexOf?_eq_none_iff]
    intro y hy
    simp only [beq_iff_eq]
    rintro rfl
    exact hx hy
  unfold jsIndexOf
  rw [hnone]

theorem indexOf_lt_of_pair_sublist {a b : SearchResult} :
    ∀ {l : List SearchResult}, [a, b].Sublist l → l.Nodup →
      List.indexOf a l < List.indexOf b l := by
  intro l
  induction l with
  | nil =>
      intro hsub _
      simp at hsub
  | cons x xs ih =>
      intro hsub hnd
      rw [List.nodup_cons] at hnd
      cases hsub with
      | cons _ htail =>
          have ha : a ∈ xs := htail.subset (by simp)
          have hb : b ∈ xs := htail.subset (by simp)
          have hxa : x ≠ a := fun hxa => hnd.1 (hxa ▸ ha)
          have hxb : x ≠ b := fun hxb => hnd.1 (hxb ▸ hb)
          rw [List.indexOf_cons_ne xs hxa, List.indexOf_cons_ne xs hxb]
          exact Nat.succ_lt_succ (ih htail hnd.2)
      | cons₂ _ htail =>
          have hb : b ∈ xs := htail.subset (by simp)
          have hab : a ≠ b := fun hab => hnd.1 (hab ▸ hb)
          rw [List.indexOf_cons_self, List.indexOf_cons_ne xs hab]
          exact Nat.succ_pos _

/-! ### Claims -/

/-- Claim C1: for a highlighted result that is a member of the result set,
the highlightOffset binding returns the index of the result in the
sequence of all results sorted ascending by position plus one, and the
returned value lies between 1 and the size of the result set. -/
theorem computeHighlightOffset_range (results : List SearchResult)
    (h : SearchResult) (hmem : h ∈ results) :
    computeHighlightOffset results (some h)
        = (List.indexOf h (sortResults results) : Int) + 1 ∧
      1 ≤ computeHighlightOffset results (some h) ∧
      computeHighlightOffset results (some h) ≤ (results.length : Int) := by
  have hmem2 : h ∈ sortResults results :=
    (sortResults_perm results).mem_iff.mpr hmem
  have hidx : jsIndexOf (sortResults results) h
      = (List.indexOf h (sortResults results) : Int) :=
    jsIndexOf_of_mem hmem2
  have hlt : List.indexOf h (sortResults results) < (sortResults results).length :=
    List.indexOf_lt_length.mpr hmem2
  have hlen : (sortResults results).length = results.length :=
    (sortResults_perm results).length_eq
  simp only [computeHighlightOffset]
  rw [hidx]
  exact ⟨rfl, by omega, by omega⟩

/-- Witness for claim C1 at the result set of two results at positions 5
and 3, with the result at position 5 highlighted. -/
theorem computeHighlightOffset_range_witness :
    (⟨0, 5⟩ : SearchResult) ∈ ([⟨0, 5⟩, ⟨1, 3⟩] : List SearchResult) ∧
      (computeHighlightOffset [⟨0, 5⟩, ⟨1, 3⟩] (some ⟨0, 5⟩)
          = (List.indexOf (⟨0, 5⟩ : SearchResult)
              (sortResults [⟨0, 5⟩, ⟨1, 3⟩]) : Int) + 1 ∧
        1 ≤ computeHighlightOffset [⟨0, 5⟩, ⟨1, 3⟩] (some ⟨0, 5⟩) ∧
        computeHighlightOffset [⟨0, 5⟩, ⟨1, 3⟩] (some ⟨0, 5⟩)
          ≤ (([⟨0, 5⟩, ⟨1, 3⟩] : List SearchResult).length : Int)) :=
  ⟨by decide, computeHighlightOffset_range _ _ (by decide)⟩

/-- Claim C2: when no result is highlighted the highlightOffset binding
returns 0, for every result set including the empty one. -/
theorem computeHighlightOffset_none (results : List SearchResult) :
    computeHighlightOffset results none = 0 := rfl

/-- Claim C3: the sort of the highlightOffset binding is stable: two
results of the result set whose positions compare as same keep their
relative insertion order in the sorted sequence, and hence the earlier
inserted one receives the smaller offset. -/
theorem sortResults_stable (results : List SearchResult) (a b : SearchResult)
    (hsame : compareWith a.markerStart b.markerStart = CompareOutcome.same)
    (hsub : [a, b].Sublist results) (hnd : results.Nodup) :
    [a, b].Sublist (sortResults results) ∧
      computeHighlightOffset results (some a)
        < computeHighlightOffset results (some b) := by
  have hle : comparatorLE a b := by
    unfold comparatorLE resultComparator
    rw [hsame]
    simp [sortMapping]
  have hpair : [a, b].Sublist (sortResults results) :=
    List.pair_sublist_insertionSort hle hsub
  have hndS : (sortResults results).Nodup :=
    ((sortResults_perm results).nodup_iff).mpr hnd
  have hia : a ∈ sortResults results := hpair.subset (by simp)
  have hib : b ∈ sortResults results := hpair.subset (by simp)
  have hidx := indexOf_lt_of_pair_sublist hpair hndS
  refine ⟨hpair, ?_⟩
  simp only [computeHighlightOffset]
  rw [jsIndexOf_of_mem hia, jsIndexOf_of_mem hib]
  omega

/-- Witness for claim C3 at two distinct results sharing position 5,
inserted in the order of their identity tags. -/
theorem sortResults_stable_witness :
    compareWith (⟨0, 5⟩ : SearchResult).markerStart
        (⟨1, 5⟩ : SearchResult).markerStart = CompareOutcome.same ∧
      ([⟨0, 5⟩, ⟨1, 5⟩] : List SearchResult).Sublist [⟨0, 5⟩, ⟨1, 5⟩] ∧
      ([⟨0, 5⟩, ⟨1, 5⟩] : List SearchResult).Nodup ∧
      (([⟨0, 5⟩, ⟨1, 5⟩] : List SearchResult).Sublist
          (sortResults [⟨0, 5⟩, ⟨1, 5⟩]) ∧
        computeHighlightOffset [⟨0, 5⟩, ⟨1, 5⟩] (some ⟨0, 5⟩)
          < computeHighlightOffset [⟨0, 5⟩, ⟨1, 5⟩] (some ⟨1, 5⟩)) :=
  ⟨by decide, by decide, by decide,
    sortResults_stable _ _ _ (by decide) (by decide) (by decide)⟩

/-- Claim C4: the highlightOffset binding is monotone in position: of two
members of the result set, the one whose position compares as before
receives the strictly smaller offset. -/
theorem computeHighlightOffset_mono (results : List SearchResult)
    (h1 h2 : SearchResult) (hmem1 : h1 ∈ results) (hmem2 : h2 ∈ results)
    (hbefore : compareWith h1.markerStart h2.markerStart = CompareOutcome.before) :
    computeHighlightOffset results (some h1)
      < computeHighlightOffset results (some h2) := by
  have hlt : h1.markerStart < h2.markerStart :=
    (compareWith_eq_before_iff _ _).mp hbefore
  have hm1 : h1 ∈ sortResults results :=
    (sortResults_perm results).mem_iff.mpr hmem1
  have hm2 : h2 ∈ sortResults results :=
    (sortResults_perm results).mem_iff.mpr hmem2
  have hi1 : List.indexOf h1 (sortResults results) < (sortResults results).length :=
    List.indexOf_lt_length.mpr hm1
  have hi2 : List.indexOf h2 (sortResults results) < (sortResults results).length :=
    List.indexOf_lt_length.mpr hm2
  have hne : h1 ≠ h2 := by
    intro he
    rw [he] at hlt
    omega
  have hsorted := sortResults_sorted results
  rw [List.Sorted, List.pairwise_iff_getElem] at hsorted
  have key : List.indexOf h1 (sortResults results)
      < List.indexOf h2 (sortResults results) := by
    rcases Nat.lt_trichotomy (List.indexOf h1 (sortResults results))
        (List.indexOf h2 (sortResults results)) with hc | hc | hc
    · exact hc
    · exact absurd ((List.indexOf_inj hm1 hm2).mp hc) hne
    · exfalso
      have hord := hsorted _ _ hi2 hi1 hc
      simp only [List.getElem_indexOf] at hord
      rw [comparatorLE_iff] at hord
      omega
  simp only [computeHighlightOffset]
  rw [jsIndexOf_of_mem hm1, jsIndexOf_of_mem hm2]
  omega

/-- Witness for claim C4 at a result set of two results at positions 10
and 5, taking the result at position 5 as the earlier one. -/
theorem computeHighlightOffset_mono_witness :
    (⟨1, 5⟩ : SearchResult) ∈ ([⟨0, 10⟩, ⟨1, 5⟩] : List SearchResult) ∧
      (⟨0, 10⟩ : SearchResult) ∈ ([⟨0, 10⟩, ⟨1, 5⟩] : List SearchResult) ∧
      compareWith (⟨1, 5⟩ : SearchResult).markerStart
        (⟨0, 10⟩ : SearchResult).markerStart = CompareOutcome.before ∧
      computeHighlightOffset [⟨0, 10⟩, ⟨1, 5⟩] (some ⟨1, 5⟩)
        < computeHighlightOffset [⟨0, 10⟩, ⟨1, 5⟩] (some ⟨0, 10⟩) :=
  ⟨by decide, by decide, by decide,
    computeHighlightOffset_mono _ _ _ (by decide) (by decide) (by decide)⟩

/-- Claim C5: the highlightOffset binding does not mutate the result set:
the editing state after the binding step, in particular its result list
with its insertion order, is the state that was read. -/
theorem highlightOffsetBinding_no_mutation (st : EditingState) :
    (highlightOffsetBinding st).2.results = st.results ∧
      (highlightOffsetBinding st).2 = st ∧
      (highlightOffsetBinding st).1
        = computeHighlightOffset st.results st.highlightedResult := by
  unfold highlightOffsetBinding computeHighlightOffset
  cases st.highlightedResult <;> exact ⟨rfl, rfl, rfl⟩

/-- Claim C6: in the scenario with results at positions 10, 5 and 20 in
insertion order and the result at position 5 highlighted, the binding
returns 1, the sorted order being B, A, C. -/
theorem scenario_offset_resultB :
    computeHighlightOffset [resultA, resultB, resultC] (some resultB) = 1 ∧
      sortResults [resultA, resultB, resultC] = [resultB, resultA, resultC] := by
  decide

/-- Claim C8: a highlighted result that is not a member of the result set
yields offset 0: the array search returns -1 and adding 1 gives 0. -/
theorem computeHighlightOffset_stale (results : List SearchResult)
    (h : SearchResult) (hmem : h ∉ results) :
    computeHighlightOffset results (some h) = 0 := by
  have hnot : h ∉ sortResults results := fun hc =>
    hmem ((sortResults_perm results).mem_iff.mp hc)
  simp only [computeHighlightOffset]
  rw [jsIndexOf_of_not_mem hnot]
  omega

/-- Witness for claim C8 at the empty result set and a stale result. -/
theorem computeHighlightOffset_stale_witness :
    (⟨0, 0⟩ : SearchResult) ∉ ([] : List SearchResult) ∧
      computeHighlightOffset [] (some ⟨0, 0⟩) = 0 :=
  ⟨by decide, computeHighlightOffset_stale _ _ (by decide)⟩

/-- Claim C7: the change handler on the result collection writes the
current size of the collection into the matchCount property of the form
view, for every result set and every prior form-view state. -/
theorem onResultsChange_matchCount (results : List SearchResult)
    (formView : FormViewState) :
    (onResultsChange results formView).matchCount = results.length := rfl

/-- Claim C9: the searchReseted event is fired on every transition of the
isDirty property to true, and never on a transition to false. -/
theorem searchReseted_on_dirty_transition (oldVal : Bool) :
    eventsOnIsDirtySet false true = [UIEvent.searchReseted] ∧
      eventsOnIsDirtySet oldVal false = [] := by
  cases oldVal <;> exact ⟨rfl, rfl⟩

/-- Claim C10: the default image-style configuration as a function of the
loaded image editing plugins: both plugins give the six inline and block
arrangements with the two groups, ImageBlock alone gives full and side,
ImageInline alone gives the three inline arrangements, and with neither
plugin the default stays undefined. -/
theorem defineDefaultConfiguration_cases :
    defineDefaultConfiguration true true
        = some { arrangements := [ "alignInline", "alignLeft", "alignRight",
                                   "alignCenter", "alignBlockLeft", "alignBlockRight" ],
                 groups := some [ "inParagraph", "betweenParagraphs" ] } ∧
      defineDefaultConfiguration true false
        = some { arrangements := [ "full", "side" ], groups := none } ∧
      defineDefaultConfiguration false true
        = some { arrangements := [ "alignInline", "alignLeft", "alignRight" ],
                 groups := none } ∧
      defineDefaultConfiguration false false = none :=
  ⟨rfl, rfl, rfl, rfl⟩
